import Mathlib

/-!
Verification of the Ourotus Atlas hex-map engine and data store.

The definitions below are a shallow embedding of the JavaScript sources:
the `DB` data-store module (biomes, hex records, `deleteBiome`) and the
`HexMap` module (axial coordinate math, viewport transform, pointer event
handlers, facade methods).  JavaScript numbers are modelled as real
numbers; `Math.round` is `round` (both are floor of x + 1/2);
`Math.sqrt(3)` is `Real.sqrt 3`.  Fallible DOM access is modelled with
`Option`/`Except`.
-/

/- ===================== Data-store model (DB module) ===================== -/

/-- Biome record as built by `DB.createBiome`. -/
structure Biome where
  id : String
  name : String
  color : String
  pattern : String
  temperature : String
  humidity : String
  elevation : Int
  description : String
deriving DecidableEq

/-- Hex record as built by `DB.updateHex` (identity is the `(q, r)` pair). -/
structure HexRecord where
  q : Int
  r : Int
  biomeId : String
  label : String
  notes : String
deriving DecidableEq

/-- The `hexmap.settings` object (map bounds in hex counts). -/
structure HexmapSettings where
  width : Int
  height : Int
deriving DecidableEq

/-- The `data.hexmap` table. -/
structure HexmapData where
  settings : HexmapSettings
  hexes : List HexRecord
deriving DecidableEq

/-- The slice of `DB.data` that `deleteBiome` reads and writes.
`hexmap` is nullable (`DB.data.hexmap` starts as `null`). -/
structure DBData where
  biomes : List Biome
  hexmap : Option HexmapData
deriving DecidableEq

/-- The hex list reached by the optional chain `this.data.hexmap?.hexes`;
a missing `hexmap` behaves as an empty list for `some`/`find`. -/
def dbHexes (db : DBData) : List HexRecord :=
  match db.hexmap with
  | none => []
  | some m => m.hexes

/-- JavaScript `Array.prototype.findIndex`, with `none` standing for `-1`. -/
def jsFindIndex (p : α → Bool) : List α → Option Nat
  | [] => none
  | x :: xs => if p x then some 0 else (jsFindIndex p xs).map (· + 1)

/-- `DB.deleteBiome(id)`: refuse if any hex references the biome, refuse if
the biome is absent, otherwise splice the biome out of `data.biomes` and
return `true`.  The returned pair is (return value, updated store). -/
def deleteBiome (db : DBData) (id : String) : Bool × DBData :=
  let usedByHex := (dbHexes db).any (fun h => h.biomeId == id)
  if usedByHex then (false, db)
  else
    match jsFindIndex (fun b => b.id == id) db.biomes with
    | none => (false, db)
    | some idx => (true, { db with biomes := db.biomes.eraseIdx idx })

/-- Referential integrity of the store: every stored hex's `biomeId`
resolves to some biome in `data.biomes`. -/
def biomeIntegrity (db : DBData) : Prop :=
  ∀ h ∈ dbHexes db, ∃ b ∈ db.biomes, b.id = h.biomeId

/-- Concrete sample store used by witnesses: two biomes, one hex that
references the `plains` biome. -/
def dbSample : DBData :=
  { biomes :=
      [ { id := "forest", name := "Forest", color := "#228833", pattern := "trees"
          temperature := "temperate", humidity := "moist", elevation := 1, description := "" }
      , { id := "plains", name := "Plains", color := "#88aa44", pattern := "solid"
          temperature := "temperate", humidity := "moderate", elevation := 1, description := "" } ]
    hexmap := some
      { settings := { width := 20, height := 15 }
        hexes := [ { q := 0, r := 0, biomeId := "plains", label := "", notes := "" } ] } }

/- ===================== HexMap geometry and viewport ===================== -/

noncomputable section

/-- Hex circumradius: `hex: { size: 30, ... }`. -/
def hexSize : ℝ := 30

/-- The value `Math.sqrt(3)` used throughout the layout math. -/
def sqrt3 : ℝ := Real.sqrt 3

/-- `this.hex.width = this.hex.size * 2` (set in `init`). -/
def hexWidth : ℝ := hexSize * 2

/-- `this.hex.height = Math.sqrt(3) * this.hex.size` (set in `init`). -/
def hexHeight : ℝ := sqrt3 * hexSize

/-- `hexToPixel(q, r)`: world-space pixel center of an axial coordinate,
extended to fractional inputs exactly as the formula reads. -/
def hexToPixel (q r : ℝ) : ℝ × ℝ :=
  (hexSize * (3 / 2 * q), hexSize * (sqrt3 / 2 * q + sqrt3 * r))

/-- `roundHex(q, r)`: round each cube coordinate, then recompute the one
with the largest rounding error from the other two (`s` is never returned,
so the third branch of the standard algorithm is omitted in the source). -/
def roundHex (q r : ℝ) : ℤ × ℤ :=
  let s := -q - r
  let rq := round q
  let rr := round r
  let rs := round s
  let qD := |(rq : ℝ) - q|
  let rD := |(rr : ℝ) - r|
  let sD := |(rs : ℝ) - s|
  if qD > rD ∧ qD > sD then (-rr - rs, rr)
  else if rD > sD then (rq, -rq - rs)
  else (rq, rr)

/-- The fractional (pre-rounding) world-pixel to axial conversion of
`pixelToHex`, lines `q = (2/3 * x) / size; r = (-1/3 * x + sqrt(3)/3 * y) / size`. -/
def pixelToHexFrac (x y : ℝ) : ℝ × ℝ :=
  ((2 / 3 * x) / hexSize, (-1 / 3 * x + sqrt3 / 3 * y) / hexSize)

/-- The viewport record `view: { offsetX, offsetY, zoom, minZoom, maxZoom }`. -/
structure ViewState where
  offsetX : ℝ
  offsetY : ℝ
  zoom : ℝ
  minZoom : ℝ
  maxZoom : ℝ

/-- World-to-screen affine map applied by `render` via
`ctx.translate(offsetX, offsetY); ctx.scale(zoom, zoom)`. -/
def toScreen (v : ViewState) (p : ℝ × ℝ) : ℝ × ℝ :=
  (p.1 * v.zoom + v.offsetX, p.2 * v.zoom + v.offsetY)

/-- Screen-to-world map, the first two lines of `pixelToHex`. -/
def toWorld (v : ViewState) (p : ℝ × ℝ) : ℝ × ℝ :=
  ((p.1 - v.offsetX) / v.zoom, (p.2 - v.offsetY) / v.zoom)

/-- `pixelToHex(px, py)`: screen pixel to axial hex coordinate. -/
def pixelToHex (v : ViewState) (px py : ℝ) : ℤ × ℤ :=
  let w := toWorld v (px, py)
  let f := pixelToHexFrac w.1 w.2
  roundHex f.1 f.2

/-- `onWheel`: zoom factor 0.9 for `deltaY > 0` else 1.1, clamped to
`[minZoom, maxZoom]`, offsets recomputed about the cursor `(mx, my)`. -/
def onWheelView (v : ViewState) (mx my deltaY : ℝ) : ViewState :=
  let zf : ℝ := if 0 < deltaY then 0.9 else 1.1
  let nz := max v.minZoom (min v.maxZoom (v.zoom * zf))
  let sc := nz / v.zoom
  { v with
    offsetX := mx - (mx - v.offsetX) * sc
    offsetY := my - (my - v.offsetY) * sc
    zoom := nz }

/-- `zoomIn()`: `zoom = Math.min(maxZoom, zoom * 1.2)`; offsets untouched. -/
def zoomInView (v : ViewState) : ViewState :=
  { v with zoom := min v.maxZoom (v.zoom * 1.2) }

/-- `zoomOut()`: `zoom = Math.max(minZoom, zoom / 1.2)`; offsets untouched. -/
def zoomOutView (v : ViewState) : ViewState :=
  { v with zoom := max v.minZoom (v.zoom / 1.2) }

/-- `centerView()` with canvas size `(cw, ch)` and map bounds `(sw, sh)`
in hex counts (`DB.data.hexmap?.settings || { width: 20, height: 15 }`). -/
def centerViewView (v : ViewState) (cw ch sw sh : ℝ) : ViewState :=
  { v with
    offsetX := (cw - sw * hexWidth * 0.75 * v.zoom) / 2
    offsetY := (ch - sh * hexHeight * v.zoom) / 2 }

/-- `resetView()`: zoom back to 1, then `centerView()`. -/
def resetViewView (v : ViewState) (cw ch sw sh : ℝ) : ViewState :=
  centerViewView { v with zoom := 1 } cw ch sw sh

/-- One public viewport-mutating operation of the engine, with the event
or environment data it reads (cursor position, wheel direction, canvas
size, map bounds, drag bookkeeping). -/
inductive ViewOp where
  | wheel (mx my deltaY : ℝ)
  | zoomIn
  | zoomOut
  | drag (viewStartX viewStartY clientX clientY dragStartX dragStartY : ℝ)
  | center (cw ch sw sh : ℝ)
  | reset (cw ch sw sh : ℝ)

/-- Apply one operation to the viewport.  `drag` is the `isDragging`
branch of `onMouseMove`: offsets from the drag-start bookkeeping. -/
def applyViewOp (v : ViewState) : ViewOp → ViewState
  | .wheel mx my deltaY => onWheelView v mx my deltaY
  | .zoomIn => zoomInView v
  | .zoomOut => zoomOutView v
  | .drag vsx vsy cx cy dsx dsy =>
    { v with offsetX := vsx + cx - dsx, offsetY := vsy + cy - dsy }
  | .center cw ch sw sh => centerViewView v cw ch sw sh
  | .reset cw ch sw sh => resetViewView v cw ch sw sh

/-- Apply a whole sequence of engine operations. -/
def applyViewOps (v : ViewState) (ops : List ViewOp) : ViewState :=
  ops.foldl applyViewOp v

/- ===================== Pointer-event state machine ===================== -/

/-- The `state` record of the HexMap module. -/
structure InteractionState where
  isDragging : Bool
  dragStartX : ℝ
  dragStartY : ℝ
  viewStartX : ℝ
  viewStartY : ℝ
  selectedHex : Option (ℤ × ℤ)
  hoveredHex : Option (ℤ × ℤ)

/-- Engine state visible to the pointer handlers: the viewport, the
interaction record, the canvas bounding rect origin, and the log of
`onHexSelect` invocations (the selected coordinate each time). -/
structure EngineState where
  view : ViewState
  inter : InteractionState
  rectLeft : ℝ
  rectTop : ℝ
  selectLog : List (ℤ × ℤ)

/-- `onMouseDown(e)`. -/
def onMouseDown (s : EngineState) (clientX clientY : ℝ) : EngineState :=
  { s with inter :=
    { s.inter with
      isDragging := true
      dragStartX := clientX
      dragStartY := clientY
      viewStartX := s.view.offsetX
      viewStartY := s.view.offsetY } }

/-- `onMouseMove(e)`: pan while dragging, otherwise hover tracking. -/
def onMouseMove (s : EngineState) (clientX clientY : ℝ) : EngineState :=
  let x := clientX - s.rectLeft
  let y := clientY - s.rectTop
  if s.inter.isDragging then
    { s with view :=
      { s.view with
        offsetX := s.inter.viewStartX + clientX - s.inter.dragStartX
        offsetY := s.inter.viewStartY + clientY - s.inter.dragStartY } }
  else
    let hex := pixelToHex s.view x y
    match s.inter.hoveredHex with
    | none => { s with inter := { s.inter with hoveredHex := some hex } }
    | some h =>
      if h.1 ≠ hex.1 ∨ h.2 ≠ hex.2 then
        { s with inter := { s.inter with hoveredHex := some hex } }
      else s

/-- `onMouseUp()` (also bound to `mouseleave`). -/
def onMouseUp (s : EngineState) : EngineState :=
  { s with inter := { s.inter with isDragging := false } }

/-- `onClick(e)`: suppressed only while `isDragging` is still set; selects
the hex under the pointer and invokes `onHexSelect` (logged). -/
def onClick (s : EngineState) (clientX clientY : ℝ) : EngineState :=
  if s.inter.isDragging then s
  else
    let hex := pixelToHex s.view (clientX - s.rectLeft) (clientY - s.rectTop)
    { s with
      inter := { s.inter with selectedHex := some hex }
      selectLog := s.selectLog ++ [hex] }

/-- `onWheel(e)` at the engine level. -/
def onWheelE (s : EngineState) (clientX clientY deltaY : ℝ) : EngineState :=
  { s with view := onWheelView s.view (clientX - s.rectLeft) (clientY - s.rectTop) deltaY }

/-- Browser events delivered to the canvas listeners.  For a physical
press-move-release gesture on the canvas the DOM dispatches `mousedown`,
zero or more `mousemove`s, `mouseup`, and then a `click` at the release
point (a click fires whenever press and release hit the same element,
regardless of intervening movement). -/
inductive DomEvent where
  | mousedown (clientX clientY : ℝ)
  | mousemove (clientX clientY : ℝ)
  | mouseup
  | click (clientX clientY : ℝ)
  | wheel (clientX clientY deltaY : ℝ)

/-- Dispatch one DOM event to the listeners wired in `setupEvents`. -/
def stepEvent (s : EngineState) : DomEvent → EngineState
  | .mousedown x y => onMouseDown s x y
  | .mousemove x y => onMouseMove s x y
  | .mouseup => onMouseUp s
  | .click x y => onClick s x y
  | .wheel x y d => onWheelE s x y d

/-- Deliver a sequence of DOM events. -/
def processEvents (s : EngineState) (es : List DomEvent) : EngineState :=
  es.foldl stepEvent s

/-- The module's initial state (object literal lines of the source),
with the canvas rect at the origin and an empty selection log. -/
def engineInit : EngineState :=
  { view := { offsetX := 0, offsetY := 0, zoom := 1, minZoom := 0.3, maxZoom := 3 }
    inter :=
      { isDragging := false, dragStartX := 0, dragStartY := 0
        viewStartX := 0, viewStartY := 0, selectedHex := none, hoveredHex := none }
    rectLeft := 0
    rectTop := 0
    selectLog := [] }

/-- A state in mid-drag, used to witness the drag-pan frame condition. -/
def engineDragging : EngineState :=
  { engineInit with inter := { engineInit.inter with isDragging := true } }

/- ===================== Facade lifecycle model ===================== -/

/-- The mutable size of the backing canvas element. -/
structure CanvasState where
  width : ℝ
  height : ℝ

/-- A JavaScript runtime error; dereferencing `null` raises `TypeError`. -/
inductive JsError where
  | typeError

/-- DOM-facing fields of the HexMap module: `container`, `canvas` and
`ctx` are `null` until `init` succeeds. -/
structure EngineDom where
  container : Option Unit
  canvas : Option CanvasState
  ctx : Option Unit
  view : ViewState
  hexDimsWidth : ℝ
  hexDimsHeight : ℝ

/-- The module state after `init(containerId)` returned at the guard
`if (!this.container) return;` because `getElementById` found nothing:
every field still holds its initial literal value. -/
def initMissingContainer : EngineDom :=
  { container := none
    canvas := none
    ctx := none
    view := { offsetX := 0, offsetY := 0, zoom := 1, minZoom := 0.3, maxZoom := 3 }
    hexDimsWidth := 0
    hexDimsHeight := 0 }

/-- `render()`: returns immediately when `ctx` is `null`; drawing never
mutates the model state, but reads `canvas` when `ctx` is set. -/
def renderD (s : EngineDom) : Except JsError EngineDom :=
  match s.ctx with
  | none => .ok s
  | some _ =>
    match s.canvas with
    | none => .error .typeError
    | some _ => .ok s

/-- `resize()`: reads `container.getBoundingClientRect()` and writes
`canvas.width/height`, then renders; dereferences `null` when `init`
never attached a canvas. -/
def resizeD (s : EngineDom) (rectW rectH : ℝ) : Except JsError EngineDom :=
  match s.container with
  | none => .error .typeError
  | some _ =>
    match s.canvas with
    | none => .error .typeError
    | some _ => renderD { s with canvas := some { width := rectW, height := rectH } }

/-- `centerView()`: reads `canvas.width/height` (throwing on `null`),
then recenters using the stored map bounds and renders. -/
def centerViewD (s : EngineDom) (sw sh : ℝ) : Except JsError EngineDom :=
  match s.canvas with
  | none => .error .typeError
  | some cv => renderD { s with view := centerViewView s.view cv.width cv.height sw sh }

/-- `zoomIn()`: clamped zoom bump, then render. -/
def zoomInD (s : EngineDom) : Except JsError EngineDom :=
  renderD { s with view := zoomInView s.view }

/-- `zoomOut()`: clamped zoom reduction, then render. -/
def zoomOutD (s : EngineDom) : Except JsError EngineDom :=
  renderD { s with view := zoomOutView s.view }

/-- `resetView()`: `zoom = 1` then `centerView()`. -/
def resetViewD (s : EngineDom) (sw sh : ℝ) : Except JsError EngineDom :=
  centerViewD { s with view := { s.view with zoom := 1 } } sw sh

end

/- ===================== Specification-side definitions ===================== -/

noncomputable section

/-- Squared Euclidean distance between two pixel points, used to express
Voronoi containment (a point lies in the closed Voronoi cell of the
nearest hex center). -/
def pixelDistSq (p c : ℝ × ℝ) : ℝ :=
  (p.1 - c.1) ^ 2 + (p.2 - c.2) ^ 2

/-- Modelled from the claim's words for the `roundHex` tie-break: fix `q`
only if its error is strictly greatest, else fix `r` only if its error is
strictly greatest (strictly above both others), otherwise fix `s` (the
repaired `s` is not part of the returned axial pair). -/
def roundHexClaim (q r : ℝ) : ℤ × ℤ :=
  let s := -q - r
  let rq := round q
  let rr := round r
  let rs := round s
  let qD := |(rq : ℝ) - q|
  let rD := |(rr : ℝ) - r|
  let sD := |(rs : ℝ) - s|
  if qD > rD ∧ qD > sD then (-rr - rs, rr)
  else if rD > qD ∧ rD > sD then (rq, -rq - rs)
  else (rq, rr)

/-- Modelled from the amended claim's words: fix `q` if its error strictly
exceeds both others; otherwise fix `r` if its error strictly exceeds the
`s` error; otherwise fix `s` (not returned). -/
def roundHexAmendedDesc (q r : ℝ) : ℤ × ℤ :=
  let s := -q - r
  let rq := round q
  let rr := round r
  let rs := round s
  let qD := |(rq : ℝ) - q|
  let rD := |(rr : ℝ) - r|
  let sD := |(rs : ℝ) - s|
  if qD > rD ∧ qD > sD then (-rr - rs, rr)
  else if rD > sD then (rq, -rq - rs)
  else (rq, rr)

end

/- ===================== Shared lemmas ===================== -/

/-- Squaring Math.sqrt(3) recovers 3. -/
theorem sqrt3_mul_self : sqrt3 * sqrt3 = 3 :=
  Real.mul_self_sqrt (by norm_num)

/-- The fractional conversion is a two-sided inverse of `hexToPixel` on
all real inputs. -/
theorem pixelToHexFrac_hexToPixel (q r : ℝ) :
    pixelToHexFrac (hexToPixel q r).1 (hexToPixel q r).2 = (q, r) := by
  unfold pixelToHexFrac hexToPixel hexSize
  have h3 := sqrt3_mul_self
  refine Prod.ext ?_ ?_
  · show (2 / 3 * ((30 : ℝ) * (3 / 2 * q))) / 30 = q
    ring
  · show (-1 / 3 * ((30 : ℝ) * (3 / 2 * q)) + sqrt3 / 3 * (30 * (sqrt3 / 2 * q + sqrt3 * r))) / 30 = r
    field_simp
    linear_combination (180 * q + 360 * r) * h3

/-- C1: for every pair of integers (q, r), mapping the hex to its pixel
center with hexToPixel, converting back through the fractional
pixel-to-hex affine map used by pixelToHex, and rounding with roundHex
returns exactly (q, r). -/
theorem hexToPixel_frac_roundHex_roundtrip (q r : ℤ) :
    roundHex (pixelToHexFrac (hexToPixel (q : ℝ) (r : ℝ)).1 (hexToPixel (q : ℝ) (r : ℝ)).2).1
      (pixelToHexFrac (hexToPixel (q : ℝ) (r : ℝ)).1 (hexToPixel (q : ℝ) (r : ℝ)).2).2 = (q, r) := by
  rw [pixelToHexFrac_hexToPixel]
  show roundHex (q : ℝ) (r : ℝ) = (q, r)
  have hq : round ((q : ℤ) : ℝ) = q := round_intCast q
  have hr : round ((r : ℤ) : ℝ) = r := round_intCast r
  have hs : round (-(q : ℝ) - (r : ℝ)) = -q - r := by
    rw [show -(q : ℝ) - (r : ℝ) = ((-q - r : ℤ) : ℝ) by push_cast; ring]
    exact round_intCast _
  simp only [roundHex, hq, hr, hs]
  push_cast
  simp

/-- C2: for any starting viewport whose zoom satisfies the module's
clamping invariant (positive minZoom, zoom within bounds), any cursor
position and any wheel direction, the world point under the cursor before
onWheel is mapped back to the same screen point afterwards, clamped or
not. -/
theorem onWheel_zoom_anchor (v : ViewState) (mx my deltaY : ℝ)
    (hmin : 0 < v.minZoom) (hlo : v.minZoom ≤ v.zoom) (hhi : v.zoom ≤ v.maxZoom) :
    toScreen (onWheelView v mx my deltaY) (toWorld v (mx, my)) = (mx, my) := by
  have hz : v.zoom ≠ 0 := ne_of_gt (lt_of_lt_of_le hmin hlo)
  unfold toScreen toWorld onWheelView
  refine Prod.ext ?_ ?_ <;>
  · simp only
    field_simp

/-- Witness for the zoom-anchor theorem at a clamped concrete instance:
zoom 3 already at maxZoom, wheel up (factor 1.1, clamped back to 3). -/
theorem onWheel_zoom_anchor_witness :
    (0 : ℝ) < 0.3 ∧ (0.3 : ℝ) ≤ 3 ∧ (3 : ℝ) ≤ 3 ∧
    toScreen
      (onWheelView { offsetX := 10, offsetY := 20, zoom := 3, minZoom := 0.3, maxZoom := 3 } 5 7 (-1))
      (toWorld { offsetX := 10, offsetY := 20, zoom := 3, minZoom := 0.3, maxZoom := 3 } (5, 7)) = (5, 7) :=
  ⟨by norm_num, by norm_num, le_refl 3,
    onWheel_zoom_anchor _ 5 7 (-1) (by norm_num) (by norm_num) (by norm_num)⟩

/-- C8 counterexample: with the initial viewport (offset 0, zoom 1) on an
800x600 canvas, the world point under the canvas center (400, 300) is at
screen point (480, 360) after zoomIn, so the operation is not anchored at
the canvas center. -/
theorem zoomIn_not_anchored_at_canvas_center :
    toScreen
      (zoomInView { offsetX := 0, offsetY := 0, zoom := 1, minZoom := 0.3, maxZoom := 3 })
      (toWorld { offsetX := 0, offsetY := 0, zoom := 1, minZoom := 0.3, maxZoom := 3 } (400, 300))
      ≠ (400, 300) := by
  unfold toScreen toWorld zoomInView
  simp only [Prod.mk.injEq, not_and]
  intro h
  rw [min_def] at h
  norm_num at h

/-- C8 amended: zoomIn multiplies the zoom by exactly 1.2 clamped above
at maxZoom and zoomOut divides it by exactly 1.2 clamped below at
minZoom, both leaving the offsets unchanged; consequently the operations
are anchored at the world origin, whose screen point (offsetX, offsetY)
is fixed, not at the canvas center. -/
theorem zoomInOut_factor_and_origin_anchor (v : ViewState) :
    (zoomInView v).zoom = min v.maxZoom (v.zoom * 1.2) ∧
    (zoomInView v).offsetX = v.offsetX ∧ (zoomInView v).offsetY = v.offsetY ∧
    (zoomOutView v).zoom = max v.minZoom (v.zoom / 1.2) ∧
    (zoomOutView v).offsetX = v.offsetX ∧ (zoomOutView v).offsetY = v.offsetY ∧
    toScreen (zoomInView v) (toWorld v (v.offsetX, v.offsetY)) = (v.offsetX, v.offsetY) ∧
    toScreen (zoomOutView v) (toWorld v (v.offsetX, v.offsetY)) = (v.offsetX, v.offsetY) := by
  refine ⟨rfl, rfl, rfl, rfl, rfl, rfl, ?_, ?_⟩ <;>
    simp [toScreen, toWorld, zoomInView, zoomOutView]

/-- C9 amended: centerView places the center of the map's scaled
bounding box exactly at the canvas center; the origin hex, lying at the
corner of that box rather than near its middle, is left half the scaled
map size away from the canvas center. -/
theorem centerView_centers_map_bounds (v : ViewState) (cw ch sw sh : ℝ) :
    toScreen (centerViewView v cw ch sw sh)
      (sw * hexWidth * 0.75 / 2, sh * hexHeight / 2) = (cw / 2, ch / 2) := by
  unfold toScreen centerViewView
  refine Prod.ext ?_ ?_ <;>
  · simp only
    ring

/-- C9 counterexample: with the spec scenario (bounds 20x15, hex size 30,
canvas 800x600, zoom 1), after centerView the origin hex lands at screen
x = -50, which is 450 px from the canvas center x = 400 -- far beyond the
claimed half hex-width (30 px) tolerance. -/
theorem centerView_origin_hex_far_from_center :
    ¬ pixelDistSq
        (toScreen
          (centerViewView { offsetX := 0, offsetY := 0, zoom := 1, minZoom := 0.3, maxZoom := 3 } 800 600 20 15)
          (hexToPixel 0 0))
        (800 / 2, 600 / 2) ≤ (hexWidth / 2) ^ 2 := by
  intro h
  unfold pixelDistSq toScreen centerViewView hexToPixel hexWidth hexSize at h
  simp only [mul_zero, zero_mul, add_zero, zero_add] at h
  norm_num at h
  nlinarith [sq_nonneg ((600 - 15 * hexHeight) / 2 - 300), h]

/-- C10: while isDragging is set, a mousemove only reassigns the view
offsets; zoom and its bounds, the selected hex, and the hovered hex are
untouched by the drag-pan branch. -/
theorem dragMove_changes_only_offsets (s : EngineState) (clientX clientY : ℝ)
    (h : s.inter.isDragging = true) :
    (onMouseMove s clientX clientY).view.zoom = s.view.zoom ∧
    (onMouseMove s clientX clientY).view.minZoom = s.view.minZoom ∧
    (onMouseMove s clientX clientY).view.maxZoom = s.view.maxZoom ∧
    (onMouseMove s clientX clientY).inter.selectedHex = s.inter.selectedHex ∧
    (onMouseMove s clientX clientY).inter.hoveredHex = s.inter.hoveredHex := by
  simp [onMouseMove, h]

/-- Witness for the drag-pan frame condition at a concrete mid-drag state. -/
theorem dragMove_changes_only_offsets_witness :
    engineDragging.inter.isDragging = true ∧
    ((onMouseMove engineDragging 25 30).view.zoom = engineDragging.view.zoom ∧
     (onMouseMove engineDragging 25 30).view.minZoom = engineDragging.view.minZoom ∧
     (onMouseMove engineDragging 25 30).view.maxZoom = engineDragging.view.maxZoom ∧
     (onMouseMove engineDragging 25 30).inter.selectedHex = engineDragging.inter.selectedHex ∧
     (onMouseMove engineDragging 25 30).inter.hoveredHex = engineDragging.inter.hoveredHex) :=
  ⟨rfl, dragMove_changes_only_offsets engineDragging 25 30 rfl⟩

/-- C7 counterexample: after init bailed out on a missing container,
resize dereferences the null container and throws a TypeError instead of
safely returning. -/
theorem resize_after_missing_container_throws :
    resizeD initMissingContainer 100 100 = .error .typeError := rfl

/-- C7 amended: when init finds no container it returns leaving the
engine uninitialized; render, zoomIn and zoomOut then safely return
without effect (render bails on the null ctx), but resize, centerView and
resetView dereference the null container or canvas and throw a
TypeError. -/
theorem missing_container_method_behavior (rectW rectH sw sh : ℝ) :
    renderD initMissingContainer = .ok initMissingContainer ∧
    zoomInD initMissingContainer
      = .ok { initMissingContainer with view := zoomInView initMissingContainer.view } ∧
    zoomOutD initMissingContainer
      = .ok { initMissingContainer with view := zoomOutView initMissingContainer.view } ∧
    resizeD initMissingContainer rectW rectH = .error .typeError ∧
    centerViewD initMissingContainer sw sh = .error .typeError ∧
    resetViewD initMissingContainer sw sh = .error .typeError :=
  ⟨rfl, rfl, rfl, rfl, rfl, rfl⟩

/-- C3 (code bug): in the DOM a click event fires after mouseup, so for
the gesture mousedown(10,10) / mousemove(20,20) / mouseup / click(20,20)
the isDragging guard in onClick has already been cleared by onMouseUp and
the select callback fires once even though the gesture was a drag. -/
theorem drag_gesture_still_fires_select :
    (processEvents engineInit
      [DomEvent.mousedown 10 10, DomEvent.mousemove 20 20, DomEvent.mouseup,
        DomEvent.click 20 20]).selectLog.length = 1 := rfl

/-- Single-step preservation: every engine operation keeps the module's
zoom bounds (0.3 and 3) in place and the zoom between them. -/
theorem applyViewOp_step_preserves (v : ViewState) (op : ViewOp)
    (h03 : v.minZoom = 0.3) (h3 : v.maxZoom = 3)
    (hlo : v.minZoom ≤ v.zoom) (hhi : v.zoom ≤ v.maxZoom) :
    (applyViewOp v op).minZoom = 0.3 ∧ (applyViewOp v op).maxZoom = 3 ∧
    (applyViewOp v op).minZoom ≤ (applyViewOp v op).zoom ∧
    (applyViewOp v op).zoom ≤ (applyViewOp v op).maxZoom := by
  have hmm : v.minZoom ≤ v.maxZoom := hlo.trans hhi
  have hz0 : (0 : ℝ) ≤ v.zoom := by rw [h03] at hlo; linarith
  cases op with
  | wheel mx my deltaY =>
    refine ⟨h03, h3, le_max_left _ _, max_le hmm (min_le_left _ _)⟩
  | zoomIn =>
    refine ⟨h03, h3, le_min hmm ?_, min_le_left _ _⟩
    calc v.minZoom ≤ v.zoom := hlo
    _ ≤ v.zoom * 1.2 := by linarith
  | zoomOut =>
    refine ⟨h03, h3, le_max_left _ _, max_le hmm ?_⟩
    calc v.zoom / 1.2 ≤ v.zoom := by
          apply div_le_self hz0
          norm_num
    _ ≤ v.maxZoom := hhi
  | drag vsx vsy cx cy dsx dsy => exact ⟨h03, h3, hlo, hhi⟩
  | center cw ch sw sh => exact ⟨h03, h3, hlo, hhi⟩
  | reset cw ch sw sh =>
    refine ⟨h03, h3, ?_, ?_⟩
    · show v.minZoom ≤ 1
      rw [h03]; norm_num
    · show (1 : ℝ) ≤ v.maxZoom
      rw [h3]; norm_num

/-- C4: starting from any state with the module's bounds (minZoom 0.3,
maxZoom 3) and a zoom inside them, any sequence of wheel-zoom, zoomIn,
zoomOut, drag-pan, centerView and resetView operations leaves the zoom
within [minZoom, maxZoom]; in particular repeated zooming in either
direction never escapes the clamp. -/
theorem viewOps_preserve_zoom_bounds (ops : List ViewOp) (v : ViewState)
    (h03 : v.minZoom = 0.3) (h3 : v.maxZoom = 3)
    (hlo : v.minZoom ≤ v.zoom) (hhi : v.zoom ≤ v.maxZoom) :
    (applyViewOps v ops).minZoom ≤ (applyViewOps v ops).zoom ∧
    (applyViewOps v ops).zoom ≤ (applyViewOps v ops).maxZoom := by
  induction ops generalizing v with
  | nil => exact ⟨hlo, hhi⟩
  | cons op ops ih =>
    obtain ⟨a, b, c, d⟩ := applyViewOp_step_preserves v op h03 h3 hlo hhi
    exact ih (applyViewOp v op) a b c d

/-- Witness for the zoom-bound invariant on a concrete operation
sequence including a zoom-in, a clamped wheel zoom and a reset. -/
theorem viewOps_preserve_zoom_bounds_witness :
    ({ offsetX := 0, offsetY := 0, zoom := 1, minZoom := 0.3, maxZoom := 3 } : ViewState).minZoom = 0.3 ∧
    ({ offsetX := 0, offsetY := 0, zoom := 1, minZoom := 0.3, maxZoom := 3 } : ViewState).maxZoom = 3 ∧
    (applyViewOps { offsetX := 0, offsetY := 0, zoom := 1, minZoom := 0.3, maxZoom := 3 }
        [ViewOp.zoomIn, ViewOp.wheel 100 50 (-1), ViewOp.reset 800 600 20 15]).minZoom ≤
      (applyViewOps { offsetX := 0, offsetY := 0, zoom := 1, minZoom := 0.3, maxZoom := 3 }
        [ViewOp.zoomIn, ViewOp.wheel 100 50 (-1), ViewOp.reset 800 600 20 15]).zoom ∧
    (applyViewOps { offsetX := 0, offsetY := 0, zoom := 1, minZoom := 0.3, maxZoom := 3 }
        [ViewOp.zoomIn, ViewOp.wheel 100 50 (-1), ViewOp.reset 800 600 20 15]).zoom ≤
      (applyViewOps { offsetX := 0, offsetY := 0, zoom := 1, minZoom := 0.3, maxZoom := 3 }
        [ViewOp.zoomIn, ViewOp.wheel 100 50 (-1), ViewOp.reset 800 600 20 15]).maxZoom :=
  ⟨rfl, rfl,
    (viewOps_preserve_zoom_bounds _ _ rfl rfl (by norm_num) (by norm_num)).1,
    (viewOps_preserve_zoom_bounds _ _ rfl rfl (by norm_num) (by norm_num)).2⟩

/-- A `findIndex` hit yields a valid index. -/
theorem jsFindIndex_some_of_exists {α : Type} {p : α → Bool} {l : List α}
    (h : ∃ x ∈ l, p x = true) : ∃ i, jsFindIndex p l = some i := by
  induction l with
  | nil => simp at h
  | cons y ys ih =>
    by_cases hy : p y
    · exact ⟨0, by simp [jsFindIndex, hy]⟩
    · obtain ⟨x, hx, hpx⟩ := h
      rcases List.mem_cons.mp hx with rfl | hmem
      · exact absurd hpx hy
      · obtain ⟨j, hj⟩ := ih ⟨x, hmem, hpx⟩
        exact ⟨j + 1, by simp [jsFindIndex, hy, hj]⟩

/-- An element not matching the predicate survives splicing out the
first match found by `findIndex`. -/
theorem mem_eraseIdx_of_jsFindIndex {α : Type} {p : α → Bool} {l : List α} {i : ℕ} {b : α}
    (hb : b ∈ l) (hpb : p b = false) (h : jsFindIndex p l = some i) :
    b ∈ l.eraseIdx i := by
  induction l generalizing i with
  | nil => cases hb
  | cons x xs ih =>
    have hstep : jsFindIndex p (x :: xs)
        = if p x then some 0 else (jsFindIndex p xs).map (· + 1) := rfl
    by_cases hx : p x
    · rw [hstep, if_pos hx] at h
      injection h with h
      subst h
      rcases List.mem_cons.mp hb with rfl | hmem
      · rw [hx] at hpb; cases hpb
      · simpa using hmem
    · rw [hstep, if_neg hx, Option.map_eq_some'] at h
      obtain ⟨j, hj, hij⟩ := h
      subst hij
      rcases List.mem_cons.mp hb with rfl | hmem
      · exact List.mem_cons_self _ _
      · exact List.mem_cons_of_mem _ (ih hmem hj)

/-- C6: deleteBiome refuses (returning false and leaving the store
untouched) whenever some hex references the biome id; it succeeds
(splicing out the first biome with that id and returning true) when no
hex references it and the biome exists; and it preserves referential
integrity, so no stored hex is left with a dangling biomeId. -/
theorem deleteBiome_referential_integrity (db : DBData) (id : String) :
    ((∃ h ∈ dbHexes db, h.biomeId = id) → deleteBiome db id = (false, db)) ∧
    ((∀ h ∈ dbHexes db, h.biomeId ≠ id) → (∃ b ∈ db.biomes, b.id = id) →
      ∃ i, jsFindIndex (fun b => b.id == id) db.biomes = some i ∧
        deleteBiome db id = (true, { db with biomes := db.biomes.eraseIdx i })) ∧
    (biomeIntegrity db → biomeIntegrity (deleteBiome db id).2) := by
  refine ⟨?_, ?_, ?_⟩
  · rintro ⟨h, hm, hid⟩
    have hu : (dbHexes db).any (fun h => h.biomeId == id) = true :=
      List.any_eq_true.mpr ⟨h, hm, beq_iff_eq.mpr hid⟩
    simp [deleteBiome, hu]
  · intro hall hex
    have hu : (dbHexes db).any (fun h => h.biomeId == id) = false := by
      rw [Bool.eq_false_iff]
      intro hu
      obtain ⟨h, hm, hph⟩ := List.any_eq_true.mp hu
      exact hall h hm (beq_iff_eq.mp hph)
    obtain ⟨b, hb, hbid⟩ := hex
    obtain ⟨i, hfi⟩ :=
      jsFindIndex_some_of_exists (p := fun b => b.id == id) ⟨b, hb, beq_iff_eq.mpr hbid⟩
    exact ⟨i, hfi, by simp [deleteBiome, hu, hfi]⟩
  · intro hint
    by_cases hu : (dbHexes db).any (fun h => h.biomeId == id) = true
    · have hres : deleteBiome db id = (false, db) := by simp [deleteBiome, hu]
      rw [hres]; exact hint
    · have hu' : (dbHexes db).any (fun h => h.biomeId == id) = false :=
        Bool.eq_false_iff.mpr hu
      cases hfi : jsFindIndex (fun b => b.id == id) db.biomes with
      | none =>
        have hres : deleteBiome db id = (false, db) := by simp [deleteBiome, hu', hfi]
        rw [hres]; exact hint
      | some i =>
        have hres : deleteBiome db id = (true, { db with biomes := db.biomes.eraseIdx i }) := by
          simp [deleteBiome, hu', hfi]
        rw [hres]
        intro h hm
        have hm' : h ∈ dbHexes db := hm
        obtain ⟨b, hb, hbid⟩ := hint h hm'
        have hne : h.biomeId ≠ id := by
          intro he
          exact hu (List.any_eq_true.mpr ⟨h, hm', beq_iff_eq.mpr he⟩)
        have hbne : (b.id == id) = false := by
          rw [beq_eq_false_iff_ne, hbid]
          exact hne
        exact ⟨b, mem_eraseIdx_of_jsFindIndex hb hbne hfi, hbid⟩

/-- Witness for deleteBiome: in the sample store, deleting the referenced
plains biome is rejected, deleting the unreferenced forest biome succeeds
by splicing it out, and integrity survives the successful delete. -/
theorem deleteBiome_referential_integrity_witness :
    deleteBiome dbSample "plains" = (false, dbSample) ∧
    (∃ i, jsFindIndex (fun b => b.id == "forest") dbSample.biomes = some i ∧
      deleteBiome dbSample "forest" = (true, { dbSample with biomes := dbSample.biomes.eraseIdx i })) ∧
    biomeIntegrity (deleteBiome dbSample "forest").2 :=
  ⟨(deleteBiome_referential_integrity dbSample "plains").1 (by decide),
    (deleteBiome_referential_integrity dbSample "forest").2.1 (by decide) (by decide),
    (deleteBiome_referential_integrity dbSample "forest").2.2
      (by unfold biomeIntegrity; decide)⟩

/-- For integers, the absolute value is at most the square. -/
theorem int_abs_le_sq (d : ℤ) : |d| ≤ d ^ 2 := by
  rcases eq_or_ne d 0 with rfl | h
  · simp
  · calc |d| = |d| * 1 := (mul_one _).symm
    _ ≤ |d| * |d| := mul_le_mul_of_nonneg_left (Int.one_le_abs h) (abs_nonneg d)
    _ = d ^ 2 := by rw [abs_mul_abs_self]; ring

/-- A rounding-error cross term is dominated by the square of the
integer step. -/
theorem round_step_cross_le (d : ℤ) (e : ℝ) (he : |e| ≤ 1 / 2) :
    2 * (d : ℝ) * e ≤ (d : ℝ) ^ 2 := by
  have habs : |(d : ℝ)| ≤ (d : ℝ) ^ 2 := by
    rw [← Int.cast_abs]
    exact_mod_cast int_abs_le_sq d
  have h1 : 2 * (d : ℝ) * e ≤ |2 * (d : ℝ) * e| := le_abs_self _
  have h2 : |2 * (d : ℝ) * e| = 2 * |(d : ℝ)| * |e| := by
    rw [abs_mul, abs_mul]
    norm_num
  have h3 : 2 * |(d : ℝ)| * |e| ≤ |(d : ℝ)| := by
    nlinarith [abs_nonneg (d : ℝ)]
  linarith

/-- A step of at least one in a coordinate whose error is below the
maximal error costs at least `1 - 2 * em`. -/
theorem round_step_ge (d : ℤ) (e em : ℝ) (hd : 1 ≤ d) (he0 : 0 ≤ e)
    (heh : e ≤ 1 / 2) (hem : e ≤ em) :
    1 - 2 * em ≤ (d : ℝ) ^ 2 - 2 * (d : ℝ) * e := by
  have hd' : (1 : ℝ) ≤ (d : ℝ) := by exact_mod_cast hd
  have key : 0 ≤ ((d : ℝ) - 1) * ((d : ℝ) + 1 - 2 * e) :=
    mul_nonneg (by linarith) (by linarith)
  nlinarith [key]

/-- Core inequality for surplus one: when the three rounding errors are
nonnegative, bounded by 1/2 and dominated by the third, any integer
correction summing to one costs at least as much as decrementing the
maximal-error coordinate. -/
theorem roundHex_core_pos (e1 e2 e3 : ℝ) (d1 d2 d3 : ℤ)
    (he10 : 0 ≤ e1) (he1h : e1 ≤ 1 / 2) (he20 : 0 ≤ e2) (he2h : e2 ≤ 1 / 2)
    (he30 : 0 ≤ e3) (he3h : e3 ≤ 1 / 2) (h13 : e1 ≤ e3) (h23 : e2 ≤ e3)
    (hd : d1 + d2 + d3 = 1) :
    1 - 2 * e3 ≤ ((d1 : ℝ) ^ 2 - 2 * (d1 : ℝ) * e1) + ((d2 : ℝ) ^ 2 - 2 * (d2 : ℝ) * e2)
      + ((d3 : ℝ) ^ 2 - 2 * (d3 : ℝ) * e3) := by
  have habs1 : |e1| ≤ 1 / 2 := abs_le.mpr ⟨by linarith, he1h⟩
  have habs2 : |e2| ≤ 1 / 2 := abs_le.mpr ⟨by linarith, he2h⟩
  have habs3 : |e3| ≤ 1 / 2 := abs_le.mpr ⟨by linarith, he3h⟩
  have hone : 1 ≤ d1 ∨ 1 ≤ d2 ∨ 1 ≤ d3 := by omega
  rcases hone with h | h | h
  · have t := round_step_ge d1 e1 e3 h he10 he1h h13
    have t2 := round_step_cross_le d2 e2 habs2
    have t3 := round_step_cross_le d3 e3 habs3
    nlinarith [t, t2, t3]
  · have t := round_step_ge d2 e2 e3 h he20 he2h h23
    have t1 := round_step_cross_le d1 e1 habs1
    have t3 := round_step_cross_le d3 e3 habs3
    nlinarith [t, t1, t3]
  · have t := round_step_ge d3 e3 e3 h he30 he3h le_rfl
    have t1 := round_step_cross_le d1 e1 habs1
    have t2 := round_step_cross_le d2 e2 habs2
    nlinarith [t, t1, t2]

/-- Nearest-point step for the A2-style cube rounding: if the three
rounding errors sum to the integer surplus n, are each at most 1/2 in
magnitude and the third dominates the other two, then recomputing the
third coordinate beats any integer correction with the same surplus. -/
theorem roundHex_nearest_aux (e1 e2 e3 : ℝ) (d1 d2 d3 n : ℤ)
    (h1 : |e1| ≤ 1 / 2) (h2 : |e2| ≤ 1 / 2) (h3 : |e3| ≤ 1 / 2)
    (h31 : |e1| ≤ |e3|) (h32 : |e2| ≤ |e3|)
    (hsum : e1 + e2 + e3 = (n : ℝ)) (hd : d1 + d2 + d3 = n) :
    ((n : ℝ) - e3) ^ 2 + e1 ^ 2 + e2 ^ 2
      ≤ ((d1 : ℝ) - e1) ^ 2 + ((d2 : ℝ) - e2) ^ 2 + ((d3 : ℝ) - e3) ^ 2 := by
  obtain ⟨l1, r1⟩ := abs_le.mp h1
  obtain ⟨l2, r2⟩ := abs_le.mp h2
  obtain ⟨l3, r3⟩ := abs_le.mp h3
  have hn : n = -1 ∨ n = 0 ∨ n = 1 := by
    have hu : (n : ℝ) ≤ 3 / 2 := by rw [← hsum]; linarith
    have hl : -(3 / 2) ≤ (n : ℝ) := by rw [← hsum]; linarith
    have hu' : n ≤ 1 := by
      by_contra hc
      push_neg at hc
      have : (2 : ℝ) ≤ (n : ℝ) := by exact_mod_cast hc
      linarith
    have hl' : -1 ≤ n := by
      by_contra hc
      push_neg at hc
      have : (n : ℝ) ≤ -2 := by
        have : n ≤ -2 := by omega
        exact_mod_cast this
      linarith
    omega
  rcases hn with rfl | rfl | rfl
  · -- surplus -1: all errors nonpositive, mirror of the positive case
    have he1 : e1 ≤ 0 := by push_cast at hsum; linarith
    have he2 : e2 ≤ 0 := by push_cast at hsum; linarith
    have he3 : e3 ≤ 0 := by push_cast at hsum; linarith
    have h13 : -e1 ≤ -e3 := by
      rw [abs_of_nonpos he1, abs_of_nonpos he3] at h31; linarith
    have h23 : -e2 ≤ -e3 := by
      rw [abs_of_nonpos he2, abs_of_nonpos he3] at h32; linarith
    have key := roundHex_core_pos (-e1) (-e2) (-e3) (-d1) (-d2) (-d3)
      (by linarith) (by linarith) (by linarith) (by linarith) (by linarith) (by linarith)
      h13 h23 (by omega)
    push_cast at key ⊢
    nlinarith [key]
  · -- surplus 0: componentwise rounding is already optimal
    have t1 := round_step_cross_le d1 e1 h1
    have t2 := round_step_cross_le d2 e2 h2
    have t3 := round_step_cross_le d3 e3 h3
    push_cast
    nlinarith [t1, t2, t3]
  · -- surplus 1: all errors nonnegative
    have he1 : 0 ≤ e1 := by push_cast at hsum; linarith
    have he2 : 0 ≤ e2 := by push_cast at hsum; linarith
    have he3 : 0 ≤ e3 := by push_cast at hsum; linarith
    have h13 : e1 ≤ e3 := by
      rw [abs_of_nonneg he1, abs_of_nonneg he3] at h31; linarith
    have h23 : e2 ≤ e3 := by
      rw [abs_of_nonneg he2, abs_of_nonneg he3] at h32; linarith
    have key := roundHex_core_pos e1 e2 e3 d1 d2 d3
      he1 r1 he2 r2 he3 r3 h13 h23 hd
    push_cast
    nlinarith [key]

/-- roundHex returns a nearest lattice point in cube-coordinate space:
its squared cube distance to the fractional input is at most that of any
integer axial coordinate. -/
theorem roundHex_nearest (qf rf : ℝ) (a b : ℤ) :
    (qf - ((roundHex qf rf).1 : ℝ)) ^ 2 + (rf - ((roundHex qf rf).2 : ℝ)) ^ 2
      + ((-qf - rf) - (-((roundHex qf rf).1 : ℝ) - ((roundHex qf rf).2 : ℝ))) ^ 2
    ≤ (qf - (a : ℝ)) ^ 2 + (rf - (b : ℝ)) ^ 2
      + ((-qf - rf) - (-(a : ℝ) - (b : ℝ))) ^ 2 := by
  have b1 : |((round qf : ℤ) : ℝ) - qf| ≤ 1 / 2 := by
    rw [abs_sub_comm]; exact abs_sub_round qf
  have b2 : |((round rf : ℤ) : ℝ) - rf| ≤ 1 / 2 := by
    rw [abs_sub_comm]; exact abs_sub_round rf
  have b3 : |((round (-qf - rf) : ℤ) : ℝ) - (-qf - rf)| ≤ 1 / 2 := by
    rw [abs_sub_comm]; exact abs_sub_round (-qf - rf)
  simp only [roundHex]
  split_ifs with h1 h2
  · -- recompute q: its error strictly dominates both others
    have key := roundHex_nearest_aux
      (((round rf : ℤ) : ℝ) - rf) (((round (-qf - rf) : ℤ) : ℝ) - (-qf - rf))
      (((round qf : ℤ) : ℝ) - qf)
      (round rf - b) (round (-qf - rf) + a + b) (round qf - a)
      (round qf + round rf + round (-qf - rf))
      b2 b3 b1 h1.1.le h1.2.le (by push_cast; ring) (by ring)
    push_cast at key ⊢
    nlinarith [key]
  · -- recompute r: its error dominates s and (by the failed first guard) q
    have h1' : |((round qf : ℤ) : ℝ) - qf| ≤ |((round rf : ℤ) : ℝ) - rf| := by
      rcases not_and_or.mp h1 with h | h
      · exact not_lt.mp h
      · exact (not_lt.mp h).trans h2.le
    have key := roundHex_nearest_aux
      (((round qf : ℤ) : ℝ) - qf) (((round (-qf - rf) : ℤ) : ℝ) - (-qf - rf))
      (((round rf : ℤ) : ℝ) - rf)
      (round qf - a) (round (-qf - rf) + a + b) (round rf - b)
      (round qf + round rf + round (-qf - rf))
      b1 b3 b2 h1' h2.le (by push_cast; ring) (by ring)
    push_cast at key ⊢
    nlinarith [key]
  · -- keep q and r (recompute s): the s error dominates both others
    have h2' : |((round rf : ℤ) : ℝ) - rf| ≤ |((round (-qf - rf) : ℤ) : ℝ) - (-qf - rf)| :=
      not_lt.mp h2
    have h1' : |((round qf : ℤ) : ℝ) - qf| ≤ |((round (-qf - rf) : ℤ) : ℝ) - (-qf - rf)| := by
      rcases not_and_or.mp h1 with h | h
      · exact (not_lt.mp h).trans h2'
      · exact not_lt.mp h
    have key := roundHex_nearest_aux
      (((round qf : ℤ) : ℝ) - qf) (((round rf : ℤ) : ℝ) - rf)
      (((round (-qf - rf) : ℤ) : ℝ) - (-qf - rf))
      (round qf - a) (round rf - b) (round (-qf - rf) + a + b)
      (round qf + round rf + round (-qf - rf))
      b1 b2 b3 h1' h2' (by push_cast; ring) (by ring)
    push_cast at key ⊢
    nlinarith [key]

/-- Pixel-space distances between layout images are a fixed positive
multiple of cube-coordinate distances. -/
theorem pixelDistSq_hexToPixel (u1 u2 w1 w2 : ℝ) :
    pixelDistSq (hexToPixel u1 u2) (hexToPixel w1 w2)
      = 3 / 2 * hexSize ^ 2
        * ((u1 - w1) ^ 2 + (u2 - w2) ^ 2 + ((-u1 - u2) - (-w1 - w2)) ^ 2) := by
  unfold pixelDistSq hexToPixel
  have h3 := sqrt3_mul_self
  linear_combination (hexSize ^ 2 * ((u1 - w1) ^ 2 / 4 + (u1 - w1) * (u2 - w2) + (u2 - w2) ^ 2)) * h3

/-- C5 amended: roundHex rounds q, r and s = -q-r independently, then
recomputes a coordinate of maximal rounding error from the other two --
q when its error strictly exceeds both others, otherwise r when its
error strictly exceeds the s error, otherwise s (which is not part of
the returned pair) -- and the returned coordinate is a hex cell whose
closed Voronoi region in the pixel plane contains the fractional point:
no hex center is strictly closer to it than the returned one. -/
theorem roundHex_tiebreak_and_voronoi (qf rf : ℝ) (a b : ℤ) :
    roundHex qf rf = roundHexAmendedDesc qf rf ∧
    pixelDistSq (hexToPixel qf rf)
        (hexToPixel ((roundHex qf rf).1 : ℝ) ((roundHex qf rf).2 : ℝ))
      ≤ pixelDistSq (hexToPixel qf rf) (hexToPixel (a : ℝ) (b : ℝ)) := by
  refine ⟨rfl, ?_⟩
  rw [pixelDistSq_hexToPixel, pixelDistSq_hexToPixel]
  have hpos : (0 : ℝ) ≤ 3 / 2 * hexSize ^ 2 := by positivity
  exact mul_le_mul_of_nonneg_left (roundHex_nearest qf rf a b) hpos

/-- C5 counterexample: at the fractional input (0.55, 0.55) the q and r
rounding errors tie at 9/20 above the s error 1/10; the code repairs r
and returns (1, 0), while the claim's tie-break (fix r only if its error
is strictly greatest) would fix s and return (1, 1), a cell that does
not contain the point. -/
theorem roundHex_tiebreak_counterexample :
    roundHex (11 / 20) (11 / 20) = (1, 0) ∧ roundHexClaim (11 / 20) (11 / 20) = (1, 1) := by
  have hq : round ((11 : ℝ) / 20) = 1 := by
    rw [round_eq]
    norm_num
  have hs : round (-((11 : ℝ) / 20) - 11 / 20) = -1 := by
    rw [round_eq]
    norm_num
  have e1 : |((1 : ℤ) : ℝ) - 11 / 20| = 9 / 20 := by
    rw [show ((1 : ℤ) : ℝ) - 11 / 20 = 9 / 20 by norm_num]
    rw [abs_of_nonneg] <;> norm_num
  have e3 : |((-1 : ℤ) : ℝ) - (-(11 / 20) - 11 / 20)| = 1 / 10 := by
    rw [show ((-1 : ℤ) : ℝ) - (-(11 / 20) - 11 / 20) = 1 / 10 by norm_num]
    rw [abs_of_nonneg] <;> norm_num
  constructor
  · simp only [roundHex, hq, hs, e1, e3]
    norm_num
  · simp only [roundHexClaim, hq, hs, e1, e3]
    norm_num
